import Mathlib

/-!
Verification of the visualization/color core of `spotify-player-klu`.

The Rust sources embedded here:
  * `src/spotify_player/src/ui/visualizations.rs` — palette generation and
    the scheme/intensity/level color resolver (`generate_color_palette`,
    `apply_intensity`, `get_color_for_scheme`), plus the linear wave
    renderer (`render_concentric_waves`).
  * `src/waveform_test/src/main.rs` — the beat clock
    (`elapsed * bpm / 60.0 % 1.0`) and the radial concentric-wave
    renderer, together with its own (Custom-less) `get_color_for_scheme`.
  * `src/spotify_player/src/utils.rs` — `extract_dominant_color`.

Modelling conventions:
  * `u8` channels are `ℕ` values; hypotheses `≤ 255` are added where the
    Rust type system would guarantee them.
  * `f64` arithmetic is modelled exactly over `ℚ` where only field
    operations, truncation and the float remainder occur, and over `ℝ`
    where `sqrt`/`sin` appear (the radial distance and the linear wave).
  * Rust's `as u8` cast from a float is saturating (clamps to `[0,255]`,
    truncates toward zero): `castU8`.
  * Rust's `%` on floats takes the sign of the dividend:
    `rustFmodQ` / `rustFmodR` (remainder of truncated division).
  * Rust's `f64::round` rounds half away from zero: `rustRound`.
-/

/-- Truncation toward zero of a rational, as Rust's `f64::trunc` /
the implicit truncation in float remainder. -/
def rustTruncQ (x : ℚ) : ℤ :=
  if 0 ≤ x then ⌊x⌋ else ⌈x⌉

/-- Rust float remainder `x % y`: `x - y * trunc (x / y)`, sign of the
dividend. -/
def rustFmodQ (x y : ℚ) : ℚ :=
  x - y * rustTruncQ (x / y)

/-- Beat clock of `waveform_test/src/main.rs` (`render_concentric_waves`,
line 178): `beat_progress = (elapsed * bpm / 60.0) % 1.0`. -/
def beatPhase (elapsed bpm : ℚ) : ℚ :=
  rustFmodQ (elapsed * bpm / 60) 1

/-- Rust `as u8` saturating cast from `f64` (for finite inputs): clamp to
`[0, 255]`, truncating toward zero.  For `v < 0` the floor is negative and
`Int.toNat` yields `0`, matching saturation at the bottom. -/
def castU8 (v : ℚ) : ℕ :=
  min (Int.toNat ⌊v⌋) 255

/-- `generate_color_palette` of `visualizations.rs` (lines 116–157):
base color, complement, two analogous blends, lighter and darker
variants, in this order.  `u8::saturating_sub` is `ℕ` subtraction,
`u8::saturating_add` saturates at 255; the blends go through the `as u8`
cast followed by the (no-op) `.min(255)`. -/
def generateColorPalette (r g b : ℕ) : List (ℕ × ℕ × ℕ) :=
  [ (r, g, b),
    (255 - r, 255 - g, 255 - b),
    (min (castU8 ((r : ℚ) * 0.8 + (g : ℚ) * 0.2)) 255,
     min (castU8 ((g : ℚ) * 0.8 + (b : ℚ) * 0.2)) 255,
     min (castU8 ((b : ℚ) * 0.8 + (r : ℚ) * 0.2)) 255),
    (min (castU8 ((r : ℚ) * 0.2 + (b : ℚ) * 0.8)) 255,
     min (castU8 ((g : ℚ) * 0.2 + (r : ℚ) * 0.8)) 255,
     min (castU8 ((b : ℚ) * 0.2 + (g : ℚ) * 0.8)) 255),
    (min (r + 60) 255, min (g + 60) 255, min (b + 60) 255),
    (r - 60, g - 60, b - 60) ]

/-- The `ColorScheme` enum of `visualizations.rs` (lines 37–45). -/
inductive ColorScheme where
  | cyan
  | warm
  | purple
  | green
  | sunset
  | ocean
  | custom
  deriving DecidableEq, Repr

/-- Recursion measure for `getColorForScheme`: the `Custom`/`None` arm
recurses once into `Cyan`. -/
def ColorScheme.rank : ColorScheme → ℕ
  | .custom => 1
  | _ => 0

/-- `get_color_for_scheme` of `visualizations.rs` (lines 169–286).
`Custom` with an album color scales it by `{1.0, 0.85, 0.7, 0.5}` per
level and then by `intensity`; `Custom` without one falls back to the
`Cyan` scheme by a recursive call; every built-in scheme multiplies a
fixed 4-row base table by `intensity`, each channel through `as u8`. -/
def getColorForScheme (scheme : ColorScheme) (intensity : ℚ) (level : ℕ)
    (album_color : Option (ℕ × ℕ × ℕ)) : ℕ × ℕ × ℕ :=
  match scheme, album_color with
  | .custom, some (r, g, b) =>
      let base : ℕ × ℕ × ℕ :=
        match level with
        | 0 => (r, g, b)
        | 1 => (castU8 ((r : ℚ) * 0.85), castU8 ((g : ℚ) * 0.85),
                castU8 ((b : ℚ) * 0.85))
        | 2 => (castU8 ((r : ℚ) * 0.7), castU8 ((g : ℚ) * 0.7),
                castU8 ((b : ℚ) * 0.7))
        | _ => (castU8 ((r : ℚ) * 0.5), castU8 ((g : ℚ) * 0.5),
                castU8 ((b : ℚ) * 0.5))
      (castU8 ((base.1 : ℚ) * intensity),
       castU8 ((base.2.1 : ℚ) * intensity),
       castU8 ((base.2.2 : ℚ) * intensity))
  | .custom, none =>
      getColorForScheme .cyan intensity level none
  | .cyan, _ =>
      let base : ℕ × ℕ × ℕ :=
        match level with
        | 0 => (0, 255, 255)
        | 1 => (0, 200, 255)
        | 2 => (0, 150, 200)
        | _ => (0, 100, 150)
      (castU8 ((base.1 : ℚ) * intensity),
       castU8 ((base.2.1 : ℚ) * intensity),
       castU8 ((base.2.2 : ℚ) * intensity))
  | .warm, _ =>
      let base : ℕ × ℕ × ℕ :=
        match level with
        | 0 => (255, 100, 0)
        | 1 => (255, 150, 50)
        | 2 => (200, 100, 0)
        | _ => (150, 70, 0)
      (castU8 ((base.1 : ℚ) * intensity),
       castU8 ((base.2.1 : ℚ) * intensity),
       castU8 ((base.2.2 : ℚ) * intensity))
  | .purple, _ =>
      let base : ℕ × ℕ × ℕ :=
        match level with
        | 0 => (200, 50, 255)
        | 1 => (180, 80, 230)
        | 2 => (150, 50, 200)
        | _ => (100, 30, 150)
      (castU8 ((base.1 : ℚ) * intensity),
       castU8 ((base.2.1 : ℚ) * intensity),
       castU8 ((base.2.2 : ℚ) * intensity))
  | .green, _ =>
      let base : ℕ × ℕ × ℕ :=
        match level with
        | 0 => (50, 255, 150)
        | 1 => (50, 220, 120)
        | 2 => (30, 180, 100)
        | _ => (20, 120, 70)
      (castU8 ((base.1 : ℚ) * intensity),
       castU8 ((base.2.1 : ℚ) * intensity),
       castU8 ((base.2.2 : ℚ) * intensity))
  | .sunset, _ =>
      let base : ℕ × ℕ × ℕ :=
        match level with
        | 0 => (255, 100, 150)
        | 1 => (255, 150, 100)
        | 2 => (200, 100, 100)
        | _ => (150, 70, 80)
      (castU8 ((base.1 : ℚ) * intensity),
       castU8 ((base.2.1 : ℚ) * intensity),
       castU8 ((base.2.2 : ℚ) * intensity))
  | .ocean, _ =>
      let base : ℕ × ℕ × ℕ :=
        match level with
        | 0 => (0, 150, 255)
        | 1 => (20, 120, 220)
        | 2 => (10, 80, 180)
        | _ => (5, 50, 120)
      (castU8 ((base.1 : ℚ) * intensity),
       castU8 ((base.2.1 : ℚ) * intensity),
       castU8 ((base.2.2 : ℚ) * intensity))
termination_by scheme.rank
decreasing_by simp [ColorScheme.rank]

/-- The per-level base-color table of the six built-in schemes, read off
the `match level` tables inside `get_color_for_scheme` (the `custom` row
is the `Cyan` table it falls back to). -/
def builtinBase (scheme : ColorScheme) (level : ℕ) : ℕ × ℕ × ℕ :=
  match scheme with
  | .cyan | .custom =>
      match level with
      | 0 => (0, 255, 255)
      | 1 => (0, 200, 255)
      | 2 => (0, 150, 200)
      | _ => (0, 100, 150)
  | .warm =>
      match level with
      | 0 => (255, 100, 0)
      | 1 => (255, 150, 50)
      | 2 => (200, 100, 0)
      | _ => (150, 70, 0)
  | .purple =>
      match level with
      | 0 => (200, 50, 255)
      | 1 => (180, 80, 230)
      | 2 => (150, 50, 200)
      | _ => (100, 30, 150)
  | .green =>
      match level with
      | 0 => (50, 255, 150)
      | 1 => (50, 220, 120)
      | 2 => (30, 180, 100)
      | _ => (20, 120, 70)
  | .sunset =>
      match level with
      | 0 => (255, 100, 150)
      | 1 => (255, 150, 100)
      | 2 => (200, 100, 100)
      | _ => (150, 70, 80)
  | .ocean =>
      match level with
      | 0 => (0, 150, 255)
      | 1 => (20, 120, 220)
      | 2 => (10, 80, 180)
      | _ => (5, 50, 120)

/-- Truncation toward zero of a real, as Rust's float truncation. -/
noncomputable def rustTruncR (x : ℝ) : ℤ :=
  if 0 ≤ x then ⌊x⌋ else ⌈x⌉

/-- Rust float remainder `x % y` over `ℝ`. -/
noncomputable def rustFmodR (x y : ℝ) : ℝ :=
  x - y * rustTruncR (x / y)

/-- Distance of cell `(x, y)` from the area center in the radial renderer
of `waveform_test/src/main.rs` (lines 180–190): `dx = x - width/2`,
`dy = (y - height/2) * 2`, `dist = sqrt (dx*dx + dy*dy)`. -/
noncomputable def radialDist (w h x y : ℕ) : ℝ :=
  Real.sqrt (((x : ℝ) - (w : ℝ) / 2) * ((x : ℝ) - (w : ℝ) / 2) +
    (((y : ℝ) - (h : ℝ) / 2) * 2) * (((y : ℝ) - (h : ℝ) / 2) * 2))

/-- Per-cell intensity of the radial renderer (lines 182–197):
`wave_offset = beat_progress * 15`, `wave_phase = (dist - wave_offset) % 5`,
`intensity = 1 - wave_phase` when `wave_phase < 1`, else `0`. -/
noncomputable def radialIntensity (w h : ℕ) (bp : ℝ) (x y : ℕ) : ℝ :=
  let wp := rustFmodR (radialDist w h x y - bp * 15) 5
  if wp < 1 then 1 - wp else 0

/-- Rust `f64::round`: round half away from zero. -/
noncomputable def rustRound (x : ℝ) : ℤ :=
  if 0 ≤ x then ⌊x + 1 / 2⌋ else ⌈x - 1 / 2⌉

/-- Lit row of column `x` in the linear wave renderer of
`visualizations.rs` (lines 71–82): `center_y = height/2`,
`amplitude = max (height/5) 1.5`, `wave_phase = beat_progress * 0.05`,
`wave_y = center_y + sin (x*0.2 + wave_phase) * amplitude`, stored as
`wave_y.round() as usize`. -/
noncomputable def wavePosN (h : ℕ) (bp : ℝ) (x : ℕ) : ℕ :=
  (rustRound ((h : ℝ) / 2 +
    Real.sin ((x : ℝ) * 0.2 + bp * 0.05) * max ((h : ℝ) / 5) 1.5)).toNat

/-- The lit cells of the linear wave renderer over a `w × h` area
(lines 87–104): cell `(x, y)` shows the block glyph exactly when
`y = wave_positions[x]`, every other cell is blank. -/
noncomputable def linearLitCells (w h : ℕ) (bp : ℝ) : Finset (ℕ × ℕ) :=
  (Finset.range w ×ˢ Finset.range h).filter (fun p => p.2 = wavePosN h bp p.1)

/-- Average brightness `(r + g + b) / 3` of a pixel, computed in `u16`
(no overflow: the sum is at most 765) with integer division, as in
`extract_dominant_color` (`utils.rs`, line 116). -/
def brightness (c : ℕ × ℕ × ℕ) : ℕ :=
  (c.1 + c.2.1 + c.2.2) / 3

/-- Coordinates sampled by `extract_dominant_color` (lines 111–112):
every pixel of the (resized) image with `x % 4 == 0 && y % 4 == 0`, in
`enumerate_pixels` order (row by row). -/
def sampledCoords (w h : ℕ) : List (ℕ × ℕ) :=
  (List.range h).flatMap (fun y =>
    (List.range w).filterMap (fun x =>
      if x % 4 = 0 ∧ y % 4 = 0 then some (x, y) else none))

/-- The sampled pixels that survive the brightness filter of
`extract_dominant_color` (line 117): `20 < brightness < 235`. -/
def keptPixels (w h : ℕ) (pix : ℕ → ℕ → ℕ × ℕ × ℕ) : List (ℕ × ℕ × ℕ) :=
  ((sampledCoords w h).map (fun p => pix p.1 p.2)).filter
    (fun c => decide (20 < brightness c ∧ brightness c < 235))

/-- `extract_dominant_color` of `utils.rs` (lines 101–136), over the
already-decoded and resized pixel buffer (the `resize` call itself is the
external image library; its output buffer is the `pix` argument here).
Channel sums are accumulated in `u64` (no overflow for any realistic
image, exact in `ℕ`); if no sample survives the filter the fixed fallback
`(0, 200, 255)` is returned, else the channel-wise integer averages. -/
def extractDominantColor (w h : ℕ) (pix : ℕ → ℕ → ℕ × ℕ × ℕ) : ℕ × ℕ × ℕ :=
  let kept := keptPixels w h pix
  let count := kept.length
  if count = 0 then (0, 200, 255)
  else ((kept.map (fun c => c.1)).sum / count,
        (kept.map (fun c => c.2.1)).sum / count,
        (kept.map (fun c => c.2.2)).sum / count)

/-- Modelled from the spec's words (§4.3, Color Scheme Resolver): for
`Custom` with an album color, the four tier base colors are the album
color scaled per channel by the factors `1.0 / 0.85 / 0.7 / 0.5` for
levels `0..3`, and `intensity` is applied as a second multiplicative
scale.  Each stage produces a `u8` color, hence goes through `castU8`. -/
def specCustomResolve (intensity : ℚ) (level : ℕ) (r g b : ℕ) : ℕ × ℕ × ℕ :=
  let f : ℚ :=
    match level with
    | 0 => 1
    | 1 => 0.85
    | 2 => 0.7
    | _ => 0.5
  (castU8 ((castU8 ((r : ℚ) * f) : ℚ) * intensity),
   castU8 ((castU8 ((g : ℚ) * f) : ℚ) * intensity),
   castU8 ((castU8 ((b : ℚ) * f) : ℚ) * intensity))

theorem castU8_le_255 (v : ℚ) : castU8 v ≤ 255 :=
  min_le_right _ _

theorem castU8_natCast {n : ℕ} (hn : n ≤ 255) : castU8 (n : ℚ) = n := by
  unfold castU8
  rw [Int.floor_natCast, Int.toNat_natCast, min_eq_left hn]

theorem castU8_eq_floor_toNat {v : ℚ} (hv : v ≤ 255) :
    castU8 v = (⌊v⌋).toNat := by
  unfold castU8
  refine min_eq_left ?_
  rw [Int.toNat_le]
  calc ⌊v⌋ ≤ ⌊(255 : ℚ)⌋ := Int.floor_le_floor hv
  _ = ((255 : ℕ) : ℤ) := by norm_num

theorem castU8_mul_spec (b : ℕ) (i : ℚ) (hb : b ≤ 255) (hi : i ≤ 1) :
    castU8 ((b : ℚ) * i) = (⌊(b : ℚ) * i⌋).toNat ∧
      (⌊(b : ℚ) * i⌋).toNat ≤ b := by
  have hmul : (b : ℚ) * i ≤ (b : ℚ) := by
    calc (b : ℚ) * i ≤ (b : ℚ) * 1 :=
          mul_le_mul_of_nonneg_left hi (by positivity)
    _ = b := mul_one _
  have hfloor : ⌊(b : ℚ) * i⌋ ≤ (b : ℤ) := by
    have := Int.floor_le_floor hmul
    rwa [Int.floor_natCast] at this
  refine ⟨castU8_eq_floor_toNat (hmul.trans (by exact_mod_cast hb)), ?_⟩
  rw [Int.toNat_le]
  exact_mod_cast hfloor

/-- C1: for every elapsed time `≥ 0` and every bpm `> 0`, the beat phase
`(elapsed * bpm / 60) % 1.0` lies in the half-open interval `[0, 1)`. -/
theorem beatPhase_mem_Ico (elapsed bpm : ℚ) (he : 0 ≤ elapsed)
    (hb : 0 < bpm) : 0 ≤ beatPhase elapsed bpm ∧ beatPhase elapsed bpm < 1 := by
  have hx : 0 ≤ elapsed * bpm / 60 := by positivity
  unfold beatPhase rustFmodQ rustTruncQ
  rw [div_one, if_pos hx]
  constructor
  · have := Int.floor_le (elapsed * bpm / 60)
    linarith
  · have := Int.lt_floor_add_one (elapsed * bpm / 60)
    linarith

theorem beatPhase_mem_Ico_witness :
    (0 : ℚ) ≤ 10 ∧ (0 : ℚ) < 120 ∧
      (0 ≤ beatPhase 10 120 ∧ beatPhase 10 120 < 1) :=
  ⟨by norm_num, by norm_num,
    beatPhase_mem_Ico 10 120 (by norm_num) (by norm_num)⟩

/-- C4: `generate_color_palette` returns exactly 6 colors, every channel
in `[0, 255]`, in the fixed order: base; channel-wise complement
`255 - c`; the two `0.8/0.2` analogous blends in their two
channel-rotation orders; the lightened variant (`+60`, saturating at
255); the darkened variant (`-60`, saturating at 0). -/
theorem generateColorPalette_spec (r g b : ℕ) (hr : r ≤ 255) (hg : g ≤ 255)
    (hb : b ≤ 255) :
    (generateColorPalette r g b).length = 6 ∧
    (∀ c ∈ generateColorPalette r g b,
        c.1 ≤ 255 ∧ c.2.1 ≤ 255 ∧ c.2.2 ≤ 255) ∧
    generateColorPalette r g b =
      [ (r, g, b),
        (255 - r, 255 - g, 255 - b),
        (min (castU8 ((r : ℚ) * 0.8 + (g : ℚ) * 0.2)) 255,
         min (castU8 ((g : ℚ) * 0.8 + (b : ℚ) * 0.2)) 255,
         min (castU8 ((b : ℚ) * 0.8 + (r : ℚ) * 0.2)) 255),
        (min (castU8 ((r : ℚ) * 0.2 + (b : ℚ) * 0.8)) 255,
         min (castU8 ((g : ℚ) * 0.2 + (r : ℚ) * 0.8)) 255,
         min (castU8 ((b : ℚ) * 0.2 + (g : ℚ) * 0.8)) 255),
        (min (r + 60) 255, min (g + 60) 255, min (b + 60) 255),
        (r - 60, g - 60, b - 60) ] := by
  refine ⟨rfl, ?_, rfl⟩
  intro c hc
  simp only [generateColorPalette, List.mem_cons, List.not_mem_nil,
    or_false] at hc
  rcases hc with rfl | rfl | rfl | rfl | rfl | rfl
  · exact ⟨hr, hg, hb⟩
  · exact ⟨Nat.sub_le _ _, Nat.sub_le _ _, Nat.sub_le _ _⟩
  · exact ⟨min_le_right _ _, min_le_right _ _, min_le_right _ _⟩
  · exact ⟨min_le_right _ _, min_le_right _ _, min_le_right _ _⟩
  · exact ⟨min_le_right _ _, min_le_right _ _, min_le_right _ _⟩
  · exact ⟨(Nat.sub_le _ _).trans hr, (Nat.sub_le _ _).trans hg,
      (Nat.sub_le _ _).trans hb⟩

theorem generateColorPalette_spec_witness :
    (10 : ℕ) ≤ 255 ∧ (20 : ℕ) ≤ 255 ∧ (30 : ℕ) ≤ 255 ∧
      (generateColorPalette 10 20 30).length = 6 :=
  ⟨by norm_num, by norm_num, by norm_num,
    (generateColorPalette_spec 10 20 30 (by norm_num) (by norm_num)
      (by norm_num)).1⟩

/-- C5: resolving the `Custom` scheme with no album color present yields
exactly the same color as resolving the `Cyan` scheme with the same
intensity and level, for every intensity and level — in particular at
`intensity = 1`, `level = 0`. -/
theorem customFallback_eq_cyan (intensity : ℚ) (level : ℕ) :
    getColorForScheme ColorScheme.custom intensity level none =
      getColorForScheme ColorScheme.cyan intensity level none ∧
    getColorForScheme ColorScheme.custom 1 0 none =
      getColorForScheme ColorScheme.cyan 1 0 none := by
  constructor <;> rw [getColorForScheme]

theorem getColorForScheme_builtin (scheme : ColorScheme) (intensity : ℚ)
    (level : ℕ) (album_color : Option (ℕ × ℕ × ℕ))
    (hs : scheme ≠ ColorScheme.custom) :
    getColorForScheme scheme intensity level album_color =
      (castU8 (((builtinBase scheme level).1 : ℚ) * intensity),
       castU8 (((builtinBase scheme level).2.1 : ℚ) * intensity),
       castU8 (((builtinBase scheme level).2.2 : ℚ) * intensity)) := by
  cases scheme <;>
    first
    | exact absurd rfl hs
    | (rcases level with _ | _ | _ | l <;>
        simp [getColorForScheme, builtinBase])

theorem builtinBase_le_255 (scheme : ColorScheme) (level : ℕ) :
    (builtinBase scheme level).1 ≤ 255 ∧
      (builtinBase scheme level).2.1 ≤ 255 ∧
      (builtinBase scheme level).2.2 ≤ 255 := by
  cases scheme <;> rcases level with _ | _ | _ | l <;>
    simp [builtinBase]

/-- C6: for every album color, resolving `Custom` derives the tier base
as the album color scaled per channel by `1.0 / 0.85 / 0.7 / 0.5` for
levels `0 / 1 / 2 / other`, then multiplies each channel by the
intensity; in particular
`resolve (Custom, 1.0, 0, some (100, 50, 200)) = (100, 50, 200)`. -/
theorem custom_resolve_spec (intensity : ℚ) (level : ℕ) (r g b : ℕ)
    (hr : r ≤ 255) (hg : g ≤ 255) (hb : b ≤ 255) :
    getColorForScheme ColorScheme.custom intensity level (some (r, g, b)) =
      specCustomResolve intensity level r g b ∧
    getColorForScheme ColorScheme.custom 1 0 (some (100, 50, 200)) =
      (100, 50, 200) := by
  constructor
  · rcases level with _ | _ | _ | l
    · rw [getColorForScheme]
      simp only [specCustomResolve, mul_one, castU8_natCast hr,
        castU8_natCast hg, castU8_natCast hb]
    · simp [getColorForScheme, specCustomResolve]
    · simp [getColorForScheme, specCustomResolve]
    · simp [getColorForScheme, specCustomResolve]
  · rw [getColorForScheme]
    simp only [mul_one]
    rw [castU8_natCast (by norm_num), castU8_natCast (by norm_num),
      castU8_natCast (by norm_num)]

theorem custom_resolve_spec_witness :
    (100 : ℕ) ≤ 255 ∧ (50 : ℕ) ≤ 255 ∧ (200 : ℕ) ≤ 255 ∧
      getColorForScheme ColorScheme.custom (1 / 2) 2
          (some (100, 50, 200)) =
        specCustomResolve (1 / 2) 2 100 50 200 :=
  ⟨by norm_num, by norm_num, by norm_num,
    (custom_resolve_spec (1 / 2) 2 100 50 200 (by norm_num) (by norm_num)
      (by norm_num)).1⟩

/-- C9: for every built-in (non-`Custom`) scheme, level, and intensity
in `[0, 1]`, each channel of the resolved color is the level's base
channel multiplied by the intensity and truncated to an integer, and
never exceeds that base channel. -/
theorem builtin_resolve_truncates (scheme : ColorScheme) (intensity : ℚ)
    (level : ℕ) (album_color : Option (ℕ × ℕ × ℕ))
    (hs : scheme ≠ ColorScheme.custom) (h0 : 0 ≤ intensity)
    (h1 : intensity ≤ 1) :
    getColorForScheme scheme intensity level album_color =
      ((⌊((builtinBase scheme level).1 : ℚ) * intensity⌋).toNat,
       (⌊((builtinBase scheme level).2.1 : ℚ) * intensity⌋).toNat,
       (⌊((builtinBase scheme level).2.2 : ℚ) * intensity⌋).toNat) ∧
    (getColorForScheme scheme intensity level album_color).1 ≤
      (builtinBase scheme level).1 ∧
    (getColorForScheme scheme intensity level album_color).2.1 ≤
      (builtinBase scheme level).2.1 ∧
    (getColorForScheme scheme intensity level album_color).2.2 ≤
      (builtinBase scheme level).2.2 := by
  obtain ⟨e1, e2, e3⟩ := builtinBase_le_255 scheme level
  obtain ⟨q1, l1⟩ := castU8_mul_spec (builtinBase scheme level).1 intensity e1 h1
  obtain ⟨q2, l2⟩ :=
    castU8_mul_spec (builtinBase scheme level).2.1 intensity e2 h1
  obtain ⟨q3, l3⟩ :=
    castU8_mul_spec (builtinBase scheme level).2.2 intensity e3 h1
  rw [getColorForScheme_builtin scheme intensity level album_color hs]
  exact ⟨by rw [q1, q2, q3], by rw [q1]; exact l1, by rw [q2]; exact l2,
    by rw [q3]; exact l3⟩

theorem builtin_resolve_truncates_witness :
    ColorScheme.warm ≠ ColorScheme.custom ∧ (0 : ℚ) ≤ 1 / 2 ∧
      (1 / 2 : ℚ) ≤ 1 ∧
      getColorForScheme ColorScheme.warm (1 / 2) 1 none =
        ((⌊((builtinBase ColorScheme.warm 1).1 : ℚ) * (1 / 2)⌋).toNat,
         (⌊((builtinBase ColorScheme.warm 1).2.1 : ℚ) * (1 / 2)⌋).toNat,
         (⌊((builtinBase ColorScheme.warm 1).2.2 : ℚ) * (1 / 2)⌋).toNat) :=
  ⟨by decide, by norm_num, by norm_num,
    (builtin_resolve_truncates ColorScheme.warm (1 / 2) 1 none (by decide)
      (by norm_num) (by norm_num)).1⟩

/-- C10: the color resolver is total, and for every scheme, level,
intensity (including out-of-range intensity) and optional album color,
each channel of the result lies in `[0, 255]`: the float-to-byte cast
saturates, so no channel ever wraps around. -/
theorem resolver_channels_le_255 (scheme : ColorScheme) (intensity : ℚ)
    (level : ℕ) (album_color : Option (ℕ × ℕ × ℕ)) :
    (getColorForScheme scheme intensity level album_color).1 ≤ 255 ∧
      (getColorForScheme scheme intensity level album_color).2.1 ≤ 255 ∧
      (getColorForScheme scheme intensity level album_color).2.2 ≤ 255 := by
  cases scheme
  case custom =>
    cases album_color with
    | none =>
        rw [getColorForScheme,
          getColorForScheme_builtin ColorScheme.cyan intensity level none
            (by decide)]
        exact ⟨castU8_le_255 _, castU8_le_255 _, castU8_le_255 _⟩
    | some c =>
        obtain ⟨r, g, b⟩ := c
        rcases level with _ | _ | _ | l <;>
          simp [getColorForScheme, castU8]
  all_goals
    rw [getColorForScheme_builtin _ intensity level album_color (by decide)]
  all_goals exact ⟨castU8_le_255 _, castU8_le_255 _, castU8_le_255 _⟩

theorem rustFmodR_bounds (x : ℝ) {y : ℝ} (hy : 0 < y) :
    -y < rustFmodR x y ∧ rustFmodR x y < y := by
  have hy0 : y ≠ 0 := ne_of_gt hy
  have hxy : y * (x / y) = x := by field_simp
  unfold rustFmodR rustTruncR
  by_cases h : 0 ≤ x / y
  · rw [if_pos h]
    have e : x - y * ((⌊x / y⌋ : ℤ) : ℝ) = y * (x / y - ⌊x / y⌋) := by
      rw [mul_sub, hxy]
    rw [e]
    have h1 : (0 : ℝ) ≤ x / y - ⌊x / y⌋ := by
      have := Int.floor_le (x / y); linarith
    have h2 : x / y - ⌊x / y⌋ < 1 := by
      have := Int.lt_floor_add_one (x / y); linarith
    constructor
    · have := mul_nonneg hy.le h1
      linarith
    · have := mul_lt_mul_of_pos_left h2 hy
      rw [mul_one] at this
      exact this
  · rw [if_neg h]
    have e : x - y * ((⌈x / y⌉ : ℤ) : ℝ) = y * (x / y - ⌈x / y⌉) := by
      rw [mul_sub, hxy]
    rw [e]
    have h1 : x / y - ⌈x / y⌉ ≤ 0 := by
      have := Int.le_ceil (x / y); linarith
    have h2 : (-1 : ℝ) < x / y - ⌈x / y⌉ := by
      have := Int.ceil_lt_add_one (x / y); linarith
    constructor
    · have := mul_lt_mul_of_pos_left h2 hy
      rw [mul_neg_one] at this
      linarith
    · have := mul_nonpos_of_nonneg_of_nonpos hy.le h1
      linarith

/-- C2 (amended): the per-cell intensity of the radial renderer lies in
`[0, 6)` for every cell and every `beat_progress ∈ [0, 1)`; it is not
bounded by `1`, because the Rust float remainder takes the sign of the
dividend, so `wave_phase` can be as low as `-5` and the intensity
`1 - wave_phase` can approach `6`. -/
theorem radialIntensity_range (w h : ℕ) (bp : ℝ) (x y : ℕ) (h0 : 0 ≤ bp)
    (h1 : bp < 1) :
    0 ≤ radialIntensity w h bp x y ∧ radialIntensity w h bp x y < 6 := by
  obtain ⟨hlo, hhi⟩ :=
    rustFmodR_bounds (radialDist w h x y - bp * 15)
      (by norm_num : (0 : ℝ) < 5)
  simp only [radialIntensity]
  split_ifs with hwp
  · constructor <;> linarith
  · norm_num

theorem radialIntensity_range_witness :
    (0 : ℝ) ≤ 0 ∧ (0 : ℝ) < 1 ∧
      (0 ≤ radialIntensity 4 4 0 0 0 ∧ radialIntensity 4 4 0 0 0 < 6) :=
  ⟨le_refl 0, by norm_num,
    radialIntensity_range 4 4 0 0 0 le_rfl (by norm_num)⟩

theorem radialDist_center_cell : radialDist 4 4 2 2 = 0 := by
  unfold radialDist
  norm_num

/-- C2 (counterexample): at the center cell `(2, 2)` of a `4 × 4` area
with `beat_progress = 1/2`, the computed intensity is `7/2`, which is
not in `[0, 1]`. -/
theorem radialIntensity_exceeds_one :
    radialIntensity 4 4 (1 / 2) 2 2 = 7 / 2 ∧
      ¬ radialIntensity 4 4 (1 / 2) 2 2 ≤ 1 := by
  have hceil : ⌈(-(15 / 2) / 5 : ℝ)⌉ = -1 := by
    rw [Int.ceil_eq_iff]
    norm_num
  have hmod : rustFmodR (-(15 / 2) : ℝ) 5 = -(5 / 2) := by
    unfold rustFmodR rustTruncR
    rw [if_neg (by norm_num), hceil]
    norm_num
  have harg : radialDist 4 4 2 2 - (1 / 2 : ℝ) * 15 = -(15 / 2) := by
    rw [radialDist_center_cell]; norm_num
  have hval : radialIntensity 4 4 (1 / 2) 2 2 = 7 / 2 := by
    simp only [radialIntensity]
    rw [harg, hmod, if_pos (by norm_num : (-(5 / 2) : ℝ) < 1)]
    norm_num
  exact ⟨hval, by rw [hval]; norm_num⟩

/-- C3 (amended): for a square area and `beat_progress = 0`, the
intensity field is symmetric under the reflection `x ↦ width - x` about
the vertical axis through `center_x = width / 2` — not under the
column-index mirror `x ↦ width - 1 - x`, since the center used by the
code is `width / 2` and not `(width - 1) / 2`. -/
theorem radialIntensity_mirror (w x y : ℕ) (hxw : x ≤ w) :
    radialIntensity w w 0 x y = radialIntensity w w 0 (w - x) y := by
  have hdist : radialDist w w x y = radialDist w w (w - x) y := by
    unfold radialDist
    rw [Nat.cast_sub hxw]
    congr 1
    ring
  simp only [radialIntensity]
  rw [hdist]

theorem radialIntensity_mirror_witness :
    (1 : ℕ) ≤ 4 ∧ radialIntensity 4 4 0 1 2 = radialIntensity 4 4 0 3 2 :=
  ⟨by norm_num, radialIntensity_mirror 4 1 2 (by norm_num)⟩

/-- C3 (counterexample): in a `4 × 4` area at `beat_progress = 0`, cell
`(1, 2)` has intensity `0` but its center-column mirror
`(width - 1 - 1, 2) = (2, 2)` has intensity `1`. -/
theorem radialIntensity_not_column_symmetric :
    ¬ radialIntensity 4 4 0 1 2 = radialIntensity 4 4 0 2 2 := by
  have d1 : radialDist 4 4 1 2 = 1 := by
    unfold radialDist
    norm_num
  have m1 : rustFmodR (1 : ℝ) 5 = 1 := by
    unfold rustFmodR rustTruncR
    rw [if_pos (by norm_num)]
    norm_num
  have m2 : rustFmodR (0 : ℝ) 5 = 0 := by
    unfold rustFmodR rustTruncR
    rw [if_pos (by norm_num)]
    norm_num
  have hl : radialIntensity 4 4 0 1 2 = 0 := by
    simp only [radialIntensity]
    rw [show radialDist 4 4 1 2 - (0 : ℝ) * 15 = 1 by rw [d1]; ring, m1]
    norm_num
  have hr : radialIntensity 4 4 0 2 2 = 1 := by
    simp only [radialIntensity]
    rw [show radialDist 4 4 2 2 - (0 : ℝ) * 15 = 0 by
          rw [radialDist_center_cell]; ring, m2]
    norm_num
  rw [hl, hr]
  norm_num

theorem wavePosN_bounds (bp : ℝ) (x : ℕ) :
    1 ≤ wavePosN 5 bp x ∧ wavePosN 5 bp x ≤ 4 := by
  unfold wavePosN rustRound
  have hmax : max (((5 : ℕ) : ℝ) / 5) 1.5 = 1.5 := by
    rw [show (((5 : ℕ) : ℝ) / 5) = 1 by norm_num]
    exact max_eq_right (by norm_num)
  have h52 : ((5 : ℕ) : ℝ) / 2 = 5 / 2 := by norm_num
  rw [hmax, h52]
  set s := Real.sin ((x : ℝ) * 0.2 + bp * 0.05) with hs
  have hs1 : s ≤ 1 := Real.sin_le_one _
  have hs2 : -1 ≤ s := Real.neg_one_le_sin _
  have hwy1 : (1 : ℝ) ≤ 5 / 2 + s * 1.5 := by nlinarith
  have hwy2 : 5 / 2 + s * 1.5 ≤ 4 := by nlinarith
  rw [if_pos (by linarith : (0 : ℝ) ≤ 5 / 2 + s * 1.5)]
  have hfl1 : (1 : ℤ) ≤ ⌊5 / 2 + s * 1.5 + 1 / 2⌋ := by
    apply Int.le_floor.mpr
    push_cast
    linarith
  have hfl2 : ⌊5 / 2 + s * 1.5 + 1 / 2⌋ ≤ 4 := by
    have : ⌊5 / 2 + s * 1.5 + 1 / 2⌋ < 5 := by
      apply Int.floor_lt.mpr
      push_cast
      linarith
    omega
  constructor <;> omega

/-- C7: in a `10 × 5` area, for every `beat_progress`, the linear wave
renderer lights exactly one cell per column (10 lit cells in total),
each at the row `wavePosN` — the rounded
`center_y + sin (x*0.2 + beat_progress*0.05) * amplitude` with
`center_y = height/2` and `amplitude = max (height/5) 1.5` — and every
lit row index lies in `[0, 4]`. -/
theorem linearWave_cells (bp : ℝ) :
    (∀ x, x < 10 →
        ((Finset.range 5).filter (fun y => y = wavePosN 5 bp x)).card = 1) ∧
      (linearLitCells 10 5 bp).card = 10 ∧
      ∀ p ∈ linearLitCells 10 5 bp, p.2 ≤ 4 := by
  have hb : ∀ x : ℕ, 1 ≤ wavePosN 5 bp x ∧ wavePosN 5 bp x ≤ 4 :=
    fun x => wavePosN_bounds bp x
  refine ⟨?_, ?_, ?_⟩
  · intro x _
    rw [Finset.filter_eq' (Finset.range 5) (wavePosN 5 bp x),
      if_pos (Finset.mem_range.mpr (by have := (hb x).2; omega))]
    exact Finset.card_singleton _
  · have himg : linearLitCells 10 5 bp =
        (Finset.range 10).image (fun x => (x, wavePosN 5 bp x)) := by
      ext p
      obtain ⟨px, py⟩ := p
      simp only [linearLitCells, Finset.mem_filter, Finset.mem_product,
        Finset.mem_range, Finset.mem_image]
      constructor
      · rintro ⟨⟨hx, _⟩, he⟩
        exact ⟨px, hx, by rw [← he]⟩
      · rintro ⟨x, hx, he⟩
        have h1 : x = px := congrArg Prod.fst he
        subst h1
        have h2 : wavePosN 5 bp x = py := congrArg Prod.snd he
        subst h2
        exact ⟨⟨hx, by have := (hb x).2; omega⟩, rfl⟩
    have hinj : Function.Injective (fun x : ℕ => (x, wavePosN 5 bp x)) :=
      fun a b h => congrArg Prod.fst h
    rw [himg, Finset.card_image_of_injective _ hinj, Finset.card_range]
  · intro p hp
    have he : p.2 = wavePosN 5 bp p.1 :=
      (Finset.mem_filter.mp hp).2
    rw [he]
    exact (hb p.1).2

theorem linearWave_cells_witness :
    (3 : ℕ) < 10 ∧
      ((Finset.range 5).filter (fun y => y = wavePosN 5 0 3)).card = 1 :=
  ⟨by norm_num, (linearWave_cells 0).1 3 (by norm_num)⟩

theorem filter_replicate_pos {α : Type} (p : α → Bool) (a : α) (n : ℕ)
    (h : p a = true) : (List.replicate n a).filter p = List.replicate n a := by
  induction n with
  | zero => rfl
  | succ k ih => simp [List.replicate_succ, List.filter_cons, h, ih]

theorem filter_replicate_neg {α : Type} (p : α → Bool) (a : α) (n : ℕ)
    (h : p a = false) : (List.replicate n a).filter p = [] := by
  induction n with
  | zero => rfl
  | succ k ih => simp [List.replicate_succ, List.filter_cons, h, ih]

set_option maxRecDepth 8000 in
theorem sampledCoords_len : (sampledCoords 64 64).length = 256 := by decide

theorem keptPixels_const (v : ℕ × ℕ × ℕ)
    (h : decide (20 < brightness v ∧ brightness v < 235) = true) :
    keptPixels 64 64 (fun _ _ => v) = List.replicate 256 v := by
  unfold keptPixels
  rw [show ((sampledCoords 64 64).map fun p =>
        (fun _ _ => v : ℕ → ℕ → ℕ × ℕ × ℕ) p.1 p.2) =
      (sampledCoords 64 64).map fun _ => v from rfl]
  rw [List.map_const', sampledCoords_len]
  exact filter_replicate_pos
    (fun c => decide (20 < brightness c ∧ brightness c < 235)) v 256 h

theorem extractDominantColor_const (c : ℕ) (h1 : 20 < c) (h2 : c < 235) :
    extractDominantColor 64 64 (fun _ _ => (c, c, c)) = (c, c, c) := by
  have hbr : brightness (c, c, c) = c := by
    show (c + c + c) / 3 = c
    omega
  have hkept : keptPixels 64 64 (fun _ _ => (c, c, c)) =
      List.replicate 256 (c, c, c) := by
    apply keptPixels_const
    simp [hbr, h1, h2]
  simp only [extractDominantColor]
  rw [hkept]
  simp only [List.length_replicate, List.map_replicate, List.sum_replicate,
    smul_eq_mul]
  rw [if_neg (by norm_num : ¬ (256 : ℕ) = 0),
    Nat.mul_div_cancel_left c (by norm_num : 0 < (256 : ℕ))]

theorem extractDominantColor_black :
    extractDominantColor 64 64 (fun _ _ => (0, 0, 0)) = (0, 200, 255) := by
  have hkept : keptPixels 64 64 (fun _ _ => ((0 : ℕ), (0 : ℕ), (0 : ℕ))) =
      [] := by
    unfold keptPixels
    rw [show ((sampledCoords 64 64).map fun p =>
          (fun _ _ => ((0 : ℕ), (0 : ℕ), (0 : ℕ)) :
            ℕ → ℕ → ℕ × ℕ × ℕ) p.1 p.2) =
        (sampledCoords 64 64).map fun _ => ((0 : ℕ), (0 : ℕ), (0 : ℕ))
        from rfl]
    rw [List.map_const', sampledCoords_len]
    exact filter_replicate_neg
      (fun c => decide (20 < brightness c ∧ brightness c < 235))
      (0, 0, 0) 256 (by decide)
  simp only [extractDominantColor]
  rw [hkept]
  rfl

/-- C8: dominant-color extraction keeps only sampled pixels whose
average brightness `(r+g+b)/3` lies strictly between 20 and 235 and
averages surviving channels independently: on a uniform image whose
pixels all have brightness inside the accept band (for instance the mid
gray 127) it returns exactly that color, and on an all-black image
(zero surviving samples) it returns the fixed fallback `(0, 200, 255)`
instead of failing. -/
theorem extractDominantColor_spec :
    (∀ c : ℕ, 20 < c → c < 235 →
        extractDominantColor 64 64 (fun _ _ => (c, c, c)) = (c, c, c)) ∧
      extractDominantColor 64 64 (fun _ _ => (0, 0, 0)) = (0, 200, 255) :=
  ⟨extractDominantColor_const, extractDominantColor_black⟩

theorem extractDominantColor_spec_witness :
    20 < 127 ∧ 127 < 235 ∧
      extractDominantColor 64 64 (fun _ _ => (127, 127, 127)) =
        (127, 127, 127) :=
  ⟨by norm_num, by norm_num,
    extractDominantColor_spec.1 127 (by norm_num) (by norm_num)⟩

